import Mathlib

/-
  Verification of the syntax-tree node core (src/lib/js/Node.py) of the
  jasy repository.  The Python 2 class Node(list) is embedded shallowly:
  a heap maps node identities (Nat) to node objects, each object holding
  its list part (elems) and its instance dictionary (dict).  Python
  values that the tree operations construct are modelled by PyVal;
  machine behaviour of Python 2 that the code relies on (None ordering
  in comparisons, truthiness, list equality with the identity shortcut,
  slice clamping) is modelled explicitly.
-/

namespace Jasy

/-- Token record exposed by the external tokenizer: type, line, start, end.
    The field end is renamed endp because end is a reserved word. -/
structure Token where
  type : Option String
  line : Int
  start : Int
  endp : Int
deriving DecidableEq, Repr

/-- External tokenizer object: current token, current line, source buffer
    and filename.  Read-only for the node core. -/
structure Tokenizer where
  token : Option Token
  line : Int
  source : String
  filename : String
deriving DecidableEq, Repr

/-- Python values stored in node attributes and child sequences.  The
    constructors cover the value kinds the tree operations construct and
    inspect: None, booleans, integers, strings, lists of values, the
    tokenizer reference, and node references (by heap identity). -/
inductive PyVal where
  | vNone
  | vBool (b : Bool)
  | vInt (n : Int)
  | vStr (s : String)
  | vList (xs : List PyVal)
  | vTok (t : Tokenizer)
  | vNode (id : Nat)

/-- A node object: its list part (the ordered child sequence, since Node
    subclasses list) and its instance dictionary in insertion order. -/
structure NodeObj where
  elems : List PyVal := []
  dict : List (String × PyVal) := []

instance : Inhabited NodeObj := ⟨{}⟩

/-- The heap assigns a node object to every identity. -/
abbrev Heap := Nat → NodeObj

def emptyHeap : Heap := fun _ => {}

def getNode (h : Heap) (i : Nat) : NodeObj := h i

def setNode (h : Heap) (i : Nat) (o : NodeObj) : Heap :=
  fun j => if j = i then o else h j

/-- Lookup in an insertion-ordered association list (a Python dict). -/
def alistGet {α : Type} : List (String × α) → String → Option α
  | [], _ => none
  | (k2, v) :: rest, k => if k2 = k then some v else alistGet rest k

/-- Update in an insertion-ordered association list: overwrite in place,
    or append a new key at the end. -/
def alistSet {α : Type} : List (String × α) → String → α → List (String × α)
  | [], k, v => [(k, v)]
  | (k2, v2) :: rest, k, v =>
    if k2 = k then (k2, v) :: rest else (k2, v2) :: alistSet rest k v

def getattrN (h : Heap) (i : Nat) (name : String) : Option PyVal :=
  alistGet (getNode h i).dict name

def hasattrN (h : Heap) (i : Nat) (name : String) : Bool :=
  (getattrN h i name).isSome

def setattrN (h : Heap) (i : Nat) (name : String) (v : PyVal) : Heap :=
  setNode h i { getNode h i with dict := alistSet (getNode h i).dict name v }

def pushElem (h : Heap) (i : Nat) (v : PyVal) : Heap :=
  setNode h i { getNode h i with elems := (getNode h i).elems ++ [v] }

/-- Node.__nonzero__ (source lines 224-225): every node is truthy,
    regardless of its contents. -/
def nonzeroN (_self : NodeObj) : Bool := true

/-- Python truthiness of the modelled values.  A node delegates to its
    overridden __nonzero__. -/
def pyTruthy (h : Heap) : PyVal → Bool
  | .vNone => false
  | .vBool b => b
  | .vInt n => n != 0
  | .vStr s => s != ""
  | .vList xs => !xs.isEmpty
  | .vTok _ => true
  | .vNode i => nonzeroN (getNode h i)

/-- Python 2 ordering as used on the span fields, which hold None or
    integers: None is below every other value; numbers compare
    numerically (bool counts as 0 or 1); strings lexicographically.
    Remaining cross-type cases never arise on the span fields. -/
def pyLt : PyVal → PyVal → Bool
  | .vNone, .vNone => false
  | .vNone, _ => true
  | _, .vNone => false
  | .vInt a, .vInt b => decide (a < b)
  | .vBool a, .vInt b => decide ((if a then (1 : Int) else 0) < b)
  | .vInt a, .vBool b => decide (a < (if b then (1 : Int) else 0))
  | .vBool a, .vBool b => !a && b
  | .vStr a, .vStr b => decide (a < b)
  | _, _ => false

/-- Truthiness of an optional string argument (the type and rel
    parameters default to None; an empty string is falsy). -/
def strTruthy : Option String → Bool
  | none => false
  | some s => s != ""

/-- Node.__init__ (source lines 14-41), without the trailing loop over
    args (the args parameter defaults to the empty list; initial
    children are modelled by subsequent append calls). -/
def initNode (tokenizer : Option Tokenizer) (type? : Option String) : NodeObj :=
  match tokenizer with
  | some tk =>
    match tk.token with
    | some tok =>
      { elems := [],
        dict :=
          [("type",
            if strTruthy type? then .vStr (type?.getD "")
            else match tok.type with
              | some ts => .vStr ts
              | none => .vNone),
           ("line", .vInt tok.line),
           ("start", .vInt tok.start),
           ("end", .vInt tok.endp),
           ("tokenizer", .vTok tk)] }
    | none =>
      { elems := [],
        dict :=
          [("type",
            match type? with
            | some s => .vStr s
            | none => .vNone),
           ("line", .vInt tk.line),
           ("start", .vNone),
           ("end", .vNone),
           ("tokenizer", .vTok tk)] }
  | none =>
    match type? with
    | some s => if s != "" then { elems := [], dict := [("type", .vStr s)] } else {}
    | none => {}

/-- Errors raised by the tree operations.  exception models a plain
    raise Exception(msg); the others model the named built-in Python
    exceptions.  recursionError is the recursion budget of the
    embedding (the Python originals recurse without an explicit bound). -/
inductive PyErr where
  | exception (msg : String)
  | attributeError (name : String)
  | valueError
  | typeError
  | nameError (name : String)
  | recursionError
deriving DecidableEq, Repr

def ofOpt (o : Option PyVal) (e : PyErr) : Except PyErr PyVal :=
  match o with
  | some v => .ok v
  | none => .error e

/-- Node.append (source lines 67-92).  Returns the new heap together
    with the Python return value of the call, which is None on every
    non-raising path (both the early return and the value of
    list.append).  Span maintenance reads and writes follow the
    statement order of the source. -/
def appendN (h : Heap) (selfId : Nat) (kid : PyVal) (rel : Option String) :
    Except PyErr (Heap × PyVal) :=
  if pyTruthy h kid then
    match kid with
    | .vNode kidId => do
      let h1 ←
        if hasattrN h kidId "tokenizer" then do
          let ks ← ofOpt (getattrN h kidId "start") (.attributeError "start")
          let ss ← ofOpt (getattrN h selfId "start") (.attributeError "start")
          let ha := if pyLt ks ss then setattrN h selfId "start" ks else h
          let se ← ofOpt (getattrN ha selfId "end") (.attributeError "end")
          let ke ← ofOpt (getattrN ha kidId "end") (.attributeError "end")
          pure (if pyLt se ke then setattrN ha selfId "end" ke else ha)
        else pure h
      let h2 := setattrN h1 kidId "parent" (.vNode selfId)
      let h3 :=
        match rel with
        | some r => setattrN (setattrN h2 selfId r (.vNode kidId)) kidId "rel" (.vStr r)
        | none => h2
      pure (pushElem h3 selfId kid, .vNone)
    | _ => .error (.exception "Invalid kid")
  else
    if strTruthy rel then .ok (h, .vNone)
    else .ok (pushElem h selfId kid, .vNone)

/-- Python identity (the is operator) on the modelled values: node
    references are identical when they name the same heap cell; None is
    a unique singleton.  Distinct containers are never identical; for
    the scalar kinds identity is irrelevant here because the equality
    comparison that follows it agrees with it. -/
def pyIs : PyVal → PyVal → Bool
  | .vNone, .vNone => true
  | .vNode i, .vNode j => i == j
  | _, _ => false

/-- Pairwise equality of two Python lists under a given element
    comparison: equal lengths and pairwise related elements. -/
def pyEqListWith (f : PyVal → PyVal → Bool) : List PyVal → List PyVal → Bool
  | [], [] => true
  | x :: xs, y :: ys => f x y && pyEqListWith f xs ys
  | _, _ => false

/-- Python 2 equality as invoked by list.index and the in operator
    (PyObject_RichCompareBool): an identity shortcut, then ==.  A node
    compares as the list of its children (Node subclasses list), so two
    distinct nodes with equal child sequences compare equal.  The fuel
    bounds the structural recursion of the embedding. -/
def pyEq (h : Heap) : Nat → PyVal → PyVal → Bool
  | 0, a, b => pyIs a b
  | fuel + 1, a, b =>
    if pyIs a b then true
    else
      match a, b with
      | .vNone, .vNone => true
      | .vBool x, .vBool y => x == y
      | .vBool x, .vInt y => (if x then (1 : Int) else 0) == y
      | .vInt x, .vBool y => x == (if y then (1 : Int) else 0)
      | .vInt x, .vInt y => x == y
      | .vStr x, .vStr y => x == y
      | .vList xs, .vList ys => pyEqListWith (pyEq h fuel) xs ys
      | .vList xs, .vNode j => pyEqListWith (pyEq h fuel) xs (getNode h j).elems
      | .vNode i, .vList ys => pyEqListWith (pyEq h fuel) (getNode h i).elems ys
      | .vNode i, .vNode j =>
        pyEqListWith (pyEq h fuel) (getNode h i).elems (getNode h j).elems
      | _, _ => false

/-- First index of an element identical or equal to kid (list.index with
    the RichCompareBool identity shortcut), or none (ValueError). -/
def indexFrom (h : Heap) (fuel : Nat) (kid : PyVal) : List PyVal → Option Nat
  | [] => none
  | e :: es =>
    if pyIs e kid || pyEq h fuel e kid then some 0
    else (indexFrom h fuel kid es).map (· + 1)

def setElem (h : Heap) (i : Nat) (idx : Nat) (v : PyVal) : Heap :=
  setNode h i { getNode h i with elems := (getNode h i).elems.set idx v }

/-- Node.replace (source lines 96-103).  Locates kid by list.index
    (identity shortcut, then Python list equality), substitutes repl at
    that position, copies the rel marker of kid onto repl and rebinds
    the relation attribute of self to repl; the rel marker of kid itself
    is left untouched.  Returns kid.  The fuel feeds the structural
    equality of the embedding. -/
def replaceN (h : Heap) (fuel : Nat) (selfId : Nat) (kid repl : PyVal) :
    Except PyErr (Heap × PyVal) := do
  let idx ←
    match indexFrom h fuel kid (getNode h selfId).elems with
    | some i => Except.ok i
    | none => Except.error PyErr.valueError
  let h1 := setElem h selfId idx repl
  match kid with
  | .vNode kidId =>
    if hasattrN h1 kidId "rel" then do
      let relv ← ofOpt (getattrN h1 kidId "rel") (.attributeError "rel")
      let h2 ←
        match repl with
        | .vNode replId => pure (setattrN h1 replId "rel" relv)
        | _ => Except.error (.attributeError "rel")
      match relv with
      | .vStr rs => pure (setattrN h2 selfId rs repl, kid)
      | _ => Except.error .typeError
    else pure (h1, kid)
  | _ => pure (h1, kid)

/-- True when the value carries a rel attribute (hasattr(child, "rel");
    only node objects can carry attributes). -/
def hasRel (h : Heap) : PyVal → Bool
  | .vNode i => hasattrN h i "rel"
  | _ => false

/-- Node.getUnrelatedChildren (source lines 47-54): the subsequence of
    the child list whose entries carry no rel marker (empty slots
    included, since hasattr on None is false). -/
def getUnrelatedChildren (h : Heap) (selfId : Nat) : List PyVal :=
  (getNode h selfId).elems.filter (fun c => !hasRel h c)

/-- Node.getChildrenLength (source lines 57-63). -/
def getChildrenLength (h : Heap) (selfId : Nat) (filterRelated : Bool := true) : Nat :=
  ((getNode h selfId).elems.filter (fun c => !filterRelated || !hasRel h c)).length

/-- Clamp one Python slice bound to the length of the sequence:
    negative indices count from the right end, both directions clamp. -/
def sliceClamp (len : Nat) (i : Int) : Nat :=
  if i < 0 then (len + i).toNat else min i.toNat len

/-- Python string slicing source[a:b]; a missing bound means the start
    or the end of the buffer. -/
def pySliceStr (s : String) (a b : Option Int) : String :=
  let cs := s.toList
  let n := cs.length
  let lo := match a with | none => 0 | some i => sliceClamp n i
  let hi := match b with | none => n | some i => sliceClamp n i
  String.mk ((cs.drop lo).take (hi - lo))

/-- A slice bound as the source uses it: an integer, or a bool counting
    as 0 or 1 (any other type would make slicing raise TypeError). -/
def sliceIndex : PyVal → Option Int
  | .vInt n => some n
  | .vBool b => some (if b then 1 else 0)
  | _ => none

/-- Node.getSource (source lines 200-212).  The initial guard reads
    self.tokenizer, so a node constructed without a source context fails
    with an attribute lookup error on the tokenizer attribute; when the
    attribute exists but is falsy the raise line itself dereferences the
    undefined name node.  Otherwise the buffer is sliced between the
    start and end attributes, each treated as a missing bound when it is
    unset or None. -/
def getSourceN (h : Heap) (selfId : Nat) : Except PyErr String := do
  let tkv ← ofOpt (getattrN h selfId "tokenizer") (.attributeError "tokenizer")
  if !pyTruthy h tkv then Except.error (.nameError "node")
  else do
    let src ←
      match tkv with
      | .vTok t => Except.ok t.source
      | _ => Except.error (.attributeError "source")
    let sv := (getattrN h selfId "start").getD .vNone
    let ev := (getattrN h selfId "end").getD .vNone
    match sv with
    | .vNone =>
      match ev with
      | .vNone => Except.ok (pySliceStr src none none)
      | _ =>
        match sliceIndex ev with
        | some b => Except.ok (pySliceStr src none (some b))
        | none => Except.error .typeError
    | _ =>
      match sliceIndex sv with
      | none => Except.error .typeError
      | some a =>
        match ev with
        | .vNone => Except.ok (pySliceStr src (some a) none)
        | _ =>
          match sliceIndex ev with
          | some b => Except.ok (pySliceStr src (some a) (some b))
          | none => Except.error .typeError

/-- Node.getFileName (source lines 216-217). -/
def getFileNameN (h : Heap) (selfId : Nat) : Except PyErr String := do
  let tkv ← ofOpt (getattrN h selfId "tokenizer") (.attributeError "tokenizer")
  match tkv with
  | .vTok t => Except.ok t.filename
  | _ => Except.error (.attributeError "filename")

/-- Python str() of the values the serializer stringifies with %s. -/
def pyStrOf : PyVal → String
  | .vStr s => s
  | .vInt n => toString n
  | .vBool b => if b then "True" else "False"
  | .vNone => "None"
  | _ => "object"

/-- Repetition of a string, modelling tab * indent. -/
def strMul (s : String) (n : Nat) : String :=
  String.join (List.replicate n s)

def hexDigit (n : Nat) : Char :=
  if n < 10 then Char.ofNat (48 + n) else Char.ofNat (87 + n)

def hex4 (n : Nat) : String :=
  String.mk [hexDigit (n / 4096 % 16), hexDigit (n / 256 % 16),
             hexDigit (n / 16 % 16), hexDigit (n % 16)]

/-- One character of json.dumps escaping: quote and backslash escaped,
    the named control escapes, other control characters and non-ASCII
    characters as unicode escapes (ensure_ascii). -/
def jsonEscapeChar (c : Char) : String :=
  if c = '"' then "\\\""
  else if c = '\\' then "\\\\"
  else if c = '\n' then "\\n"
  else if c = '\t' then "\\t"
  else if c = '\r' then "\\r"
  else if c = Char.ofNat 8 then "\\b"
  else if c = Char.ofNat 12 then "\\f"
  else if c.toNat < 32 || c.toNat > 126 then "\\u" ++ hex4 c.toNat
  else String.mk [c]

/-- json.dumps of a string value (by the time the serializer calls
    json.dumps the value has already been converted to a string). -/
def jsonDumpStr (s : String) : String :=
  "\"" ++ String.join (s.toList.map jsonEscapeChar) ++ "\""

/-- Code-point comparison of strings, as Python 2 compares attribute
    names for sorting; agrees with lexicographic order. -/
def charListLt : List Char → List Char → Bool
  | [], [] => false
  | [], _ :: _ => true
  | _ :: _, [] => false
  | a :: as, b :: bs =>
    if a.toNat < b.toNat then true
    else if b.toNat < a.toNat then false
    else charListLt as bs

def strLeB (a b : String) : Bool := !charListLt b.toList a.toList

/-- The reflection filter of both serializers: the first character of
    the name is an underscore. -/
def leadingUnderscore (s : String) : Bool :=
  match s.toList with
  | [] => false
  | c :: _ => c == '_'

/-- Insert a key into a sorted key list (dir() returns names sorted). -/
def insertSortedKey (s : String) : List String → List String
  | [] => [s]
  | t :: ts => if strLeB s t then s :: t :: ts else t :: insertSortedKey s ts

def sortKeys : List String → List String
  | [] => []
  | k :: ks => insertSortedKey k (sortKeys ks)

/-- Attribute names the keys of the instance dictionary produce under
    dir() enumeration: the class-level names are methods and dunders,
    all of which the serializer filters out by the leading-underscore
    test or by the value type tests, so only the sorted dictionary keys
    remain relevant. -/
def dirNames (n : NodeObj) : List String :=
  sortKeys (n.dict.map Prod.fst)

/-- Names excluded from attribute serialization in Node.toXml (source
    line 119). -/
def xmlExcludedName (name : String) : Bool :=
  name == "type" || name == "parent" || name == "comments" ||
  name == "target" || name == "rel" || name == "start" || name == "end"

/-- Names of the value-carrying list attributes (source line 133). -/
def valueListName (name : String) : Bool :=
  name == "varDecls" || name == "funDecls"

/-- True exactly for string values (the join step of the serializer
    succeeds only on strings). -/
def isStrVal : PyVal → Bool
  | .vStr _ => true
  | _ => false

/-- The underlying string of a string value. -/
def strOfVal : PyVal → String
  | .vStr s => s
  | _ => ""

/-- Rendering of a list-valued attribute in Node.toXml (source lines
    130-138): an empty list is skipped (ok none); for the value-carrying
    names the elements are replaced by their value attribute first; the
    result is joined with commas, which succeeds only when every element
    is a string and otherwise raises the serialization failure naming
    the attribute. -/
def xmlListValue (h : Heap) (name : String) (xs : List PyVal) :
    Except PyErr (Option String) :=
  if xs.isEmpty then .ok none
  else do
    let items ←
      if valueListName name then
        xs.mapM (fun x =>
          match x with
          | .vNode i => ofOpt (getattrN h i "value") (.attributeError "value")
          | _ => Except.error (.attributeError "value"))
      else pure xs
    if items.all isStrVal then
      .ok (some (String.intercalate "," (items.map strOfVal)))
    else .error (.exception ("Invalid attribute list child at: " ++ name))

/-- One attribute of the dir() loop of Node.toXml (source lines
    114-140): a related node value is collected; scalar values are
    rendered and json-quoted; other values are skipped. -/
def xmlAttrStep (h : Heap) (name : String) (v : PyVal)
    (acc : List Nat × List String) : Except PyErr (List Nat × List String) :=
  match v with
  | .vNode i => if hasattrN h i "rel" then .ok (acc.1 ++ [i], acc.2) else .ok acc
  | .vBool b =>
    .ok (acc.1, acc.2 ++ [name ++ "=" ++ jsonDumpStr (if b then "true" else "false")])
  | .vInt n => .ok (acc.1, acc.2 ++ [name ++ "=" ++ jsonDumpStr (toString n)])
  | .vStr s => .ok (acc.1, acc.2 ++ [name ++ "=" ++ jsonDumpStr s])
  | .vList xs => do
    match ← xmlListValue h name xs with
    | none => .ok acc
    | some s => .ok (acc.1, acc.2 ++ [name ++ "=" ++ jsonDumpStr s])
  | _ => .ok acc

/-- The full dir() loop of Node.toXml: collects the related children
    and the rendered attribute items, in sorted name order. -/
def xmlCollect (h : Heap) (n : NodeObj) : Except PyErr (List Nat × List String) :=
  (dirNames n).foldlM
    (fun acc name =>
      if xmlExcludedName name || leadingUnderscore name then .ok acc
      else
        match alistGet n.dict name with
        | some v => xmlAttrStep h name v acc
        | none => .ok acc)
    ([], [])

/-- Length of a value under len(): only sized values have one. -/
def pyLenH (h : Heap) : PyVal → Option Nat
  | .vStr s => some s.length
  | .vList xs => some xs.length
  | .vNode i => some (getNode h i).elems.length
  | _ => none

/-- The comment lines of Node.toXml (source lines 152-154). -/
def xmlComments (h : Heap) (commentsVal : PyVal) (innerLead lineBreak : String) :
    Except PyErr String :=
  if !pyTruthy h commentsVal then .ok ""
  else
    match commentsVal with
    | .vList cs =>
      cs.foldlM
        (fun (s : String) c =>
          match c with
          | .vNode ci => do
            let st ← ofOpt (getattrN h ci "style") (.attributeError "style")
            let md ← ofOpt (getattrN h ci "mode") (.attributeError "mode")
            let tx ← ofOpt (getattrN h ci "text") (.attributeError "text")
            Except.ok (s ++ innerLead ++ "<comment style=\"" ++ pyStrOf st ++
              "\" mode=\"" ++ pyStrOf md ++ "\">" ++ pyStrOf tx ++
              "</comment>" ++ lineBreak)
          | _ => Except.error .typeError)
        ""
    | _ => Except.error .typeError

/-- Node.toXml (source lines 107-171), with the default tab of two
    spaces.  The fuel bounds the recursion of the embedding; it also
    feeds the equality used by the membership test on relatedChildren. -/
def toXmlF (h : Heap) : Nat → Nat → Bool → Nat → Except PyErr String
  | 0, _, _, _ => .error .recursionError
  | fuel + 1, selfId, format, indent => do
    let n := getNode h selfId
    let tab := "  "
    let lead := if format then strMul tab indent else ""
    let innerLead := if format then strMul tab (indent + 1) else ""
    let lineBreak := if format then "\n" else ""
    let tyv ← ofOpt (getattrN h selfId "type") (.attributeError "type")
    let tyStr := pyStrOf tyv
    let collected ← xmlCollect h n
    let relatedChildren := collected.1
    let attrsCollection := collected.2
    let attrs :=
      if attrsCollection.length > 0 then " " ++ String.intercalate " " attrsCollection
      else ""
    let commentsVal := (getattrN h selfId "comments").getD .vNone
    let noComments ←
      if !pyTruthy h commentsVal then pure true
      else
        match pyLenH h commentsVal with
        | some l => pure (l == 0)
        | none => Except.error .typeError
    if n.elems.length == 0 && relatedChildren.isEmpty && noComments then
      .ok (lead ++ "<" ++ tyStr ++ attrs ++ "/>" ++ lineBreak)
    else do
      let commentsOut ← xmlComments h commentsVal innerLead lineBreak
      let childrenOut ← n.elems.foldlM
        (fun (s : String) c =>
          if !pyTruthy h c then .ok (s ++ innerLead ++ "<none/>" ++ lineBreak)
          else if !hasRel h c then
            match c with
            | .vNode i => do
              let t ← toXmlF h fuel i format (indent + 1)
              Except.ok (s ++ t)
            | _ => Except.error (.attributeError "toXml")
          else if !(relatedChildren.any
              (fun rc => pyIs c (.vNode rc) || pyEq h fuel c (.vNode rc))) then
            Except.error (.exception "Oops, irritated by non related")
          else .ok s)
        ""
      let relatedOut ← relatedChildren.foldlM
        (fun (s : String) rc => do
          let relv ← ofOpt (getattrN h rc "rel") (.attributeError "rel")
          let rs := pyStrOf relv
          let t ← toXmlF h fuel rc format (indent + 2)
          Except.ok (s ++ innerLead ++ "<" ++ rs ++ ">" ++ lineBreak ++ t ++
            innerLead ++ "</" ++ rs ++ ">" ++ lineBreak))
        ""
      .ok (lead ++ "<" ++ tyStr ++ attrs ++ ">" ++ lineBreak ++ commentsOut ++
        childrenOut ++ relatedOut ++ lead ++ "</" ++ tyStr ++ ">" ++ lineBreak)

/-- The nested record Node.export builds: plain values copied as-is,
    nested records for recursively exported nodes, and lists collecting
    exported children. -/
inductive ExpVal where
  | eVal (v : PyVal)
  | eRec (entries : List (String × ExpVal))
  | eList (xs : List ExpVal)

/-- Names excluded from the exported record in Node.export (source line
    178): unlike the tagged-tree serializer, type and comments are not
    excluded here. -/
def exportExcludedName (name : String) : Bool :=
  name == "parent" || name == "target" || name == "rel" ||
  name == "start" || name == "end"

/-- True for the value kinds Node.export copies as-is (the type tuple
    test on source line 182). -/
def isScalarOrList : PyVal → Bool
  | .vBool _ => true
  | .vInt _ => true
  | .vStr _ => true
  | .vList _ => true
  | _ => false

/-- Appending one exported child to the children entry of the record
    being built (source lines 185-189): the entry is created on first
    use; a pre-existing list attribute named children is extended; any
    other pre-existing value would make the append call fail. -/
def childAppend (attrs : List (String × ExpVal)) (e : ExpVal) :
    Except PyErr (List (String × ExpVal)) :=
  match alistGet attrs "children" with
  | none => .ok (attrs ++ [("children", .eList [e])])
  | some (.eList xs) => .ok (alistSet attrs "children" (.eList (xs ++ [e])))
  | some (.eVal (.vList xs)) =>
    .ok (alistSet attrs "children" (.eList (xs.map ExpVal.eVal ++ [e])))
  | some _ => .error (.attributeError "append")

/-- The dir() loop of Node.export, parameterised by the recursive
    export of subnodes: eligible attributes in sorted name order; a
    related node value is exported recursively, a plain value is
    copied, everything else is skipped. -/
def exportAttrs (h : Heap) (exp : Nat → Except PyErr ExpVal) :
    List String → NodeObj → Except PyErr (List (String × ExpVal))
  | [], _ => .ok []
  | name :: rest, n =>
    if exportExcludedName name || leadingUnderscore name then exportAttrs h exp rest n
    else
      match alistGet n.dict name with
      | none => exportAttrs h exp rest n
      | some v =>
        match v with
        | .vNode i =>
          if hasattrN h i "rel" then do
            let e ← exp i
            let restEntries ← exportAttrs h exp rest n
            .ok ((name, e) :: restEntries)
          else exportAttrs h exp rest n
        | _ =>
          if isScalarOrList v then do
            let restEntries ← exportAttrs h exp rest n
            .ok ((name, ExpVal.eVal v) :: restEntries)
          else exportAttrs h exp rest n

/-- The child loop of Node.export, parameterised by the recursive
    export of subnodes: every entry of the child sequence without a rel
    marker is exported recursively and appended under the children key;
    an empty slot has no export method, so it fails the attribute
    lookup. -/
def exportKids (h : Heap) (exp : Nat → Except PyErr ExpVal) :
    List PyVal → List (String × ExpVal) → Except PyErr ExpVal
  | [], attrs => .ok (.eRec attrs)
  | c :: cs, attrs =>
    if hasRel h c then exportKids h exp cs attrs
    else
      match c with
      | .vNode i => do
        let e ← exp i
        let attrs2 ← childAppend attrs e
        exportKids h exp cs attrs2
      | _ => .error (.attributeError "export")

/-- Node.export (source lines 175-191).  The fuel bounds the recursion
    of the embedding. -/
def exportF (h : Heap) : Nat → Nat → Except PyErr ExpVal
  | 0, _ => .error .recursionError
  | fuel + 1, selfId => do
    let n := getNode h selfId
    let attrs ← exportAttrs h (exportF h fuel) (dirNames n) n
    exportKids h (exportF h fuel) n.elems attrs

mutual

/-- Deep key discipline of an exported record: no key at any depth is
    one of the export-excluded names or starts with an underscore. -/
def exclFree : ExpVal → Bool
  | .eVal _ => true
  | .eRec es => exclFreeEntries es
  | .eList xs => exclFreeList xs

def exclFreeEntries : List (String × ExpVal) → Bool
  | [] => true
  | (k, v) :: rest =>
    !exportExcludedName k && !leadingUnderscore k && exclFree v && exclFreeEntries rest

def exclFreeList : List ExpVal → Bool
  | [] => true
  | v :: rest => exclFree v && exclFreeList rest

end

/-- Top-level keys of an exported record. -/
def expKeys : ExpVal → List String
  | .eRec es => es.map Prod.fst
  | _ => []

/-- Harness over sequences of mutation calls: append each listed node
    in turn, with no relation names. -/
def appendAll (h : Heap) (p : Nat) : List Nat → Except PyErr Heap
  | [] => .ok h
  | k :: ks => do
    let r ← appendN h p (.vNode k) none
    appendAll r.1 p ks

/-- Minimum of an initial start bound and the start bounds of a list of
    appended children, in append order. -/
def foldMin (s0 : Int) (kids : List (Nat × Int × Int)) : Int :=
  kids.foldl (fun a t => min a t.2.1) s0

/-- Maximum of an initial end bound and the end bounds of a list of
    appended children, in append order. -/
def foldMax (e0 : Int) (kids : List (Nat × Int × Int)) : Int :=
  kids.foldl (fun a t => max a t.2.2) e0

/-- A span bound as an optional integer, as stored on the span fields. -/
def optIntPv : Option Int → PyVal
  | none => .vNone
  | some k => .vInt k

/-- Return value of a mutation call, when it did not raise. -/
def retValOf (r : Except PyErr (Heap × PyVal)) : Option PyVal :=
  match r with
  | .ok (_, v) => some v
  | .error _ => none

/-- Attribute observation after a mutation call. -/
def afterAttr (r : Except PyErr (Heap × PyVal)) (i : Nat) (name : String) :
    Option PyVal :=
  match r with
  | .ok (h, _) => getattrN h i name
  | .error _ => none

/-- Child-sequence observation after a mutation call. -/
def afterElems (r : Except PyErr (Heap × PyVal)) (i : Nat) : Option (List PyVal) :=
  match r with
  | .ok (h, _) => some (getNode h i).elems
  | .error _ => none

/-- The heap a successful mutation call produced, or the given default. -/
def heapOf (r : Except PyErr (Heap × PyVal)) (d : Heap) : Heap :=
  match r with
  | .ok (h, _) => h
  | .error _ => d

/-- Concrete scenarios used by the claims below. -/

def c1TokNone : Tokenizer :=
  { token := none, line := 1, source := "abcdefgh", filename := "f.js" }

def c1Token : Token := { type := some "number", line := 1, start := 5, endp := 7 }

def c1TokSome : Tokenizer :=
  { token := some c1Token, line := 1, source := "abcdefgh", filename := "f.js" }

/-- A parent built from a tokenizer with no active token (both span
    bounds None) and a child carrying the span 5..7. -/
def c1Heap : Heap :=
  setNode (setNode emptyHeap 0 (initNode (some c1TokNone) (some "P")))
    1 (initNode (some c1TokSome) none)

def c1wToken : Token := { type := some "P", line := 1, start := 2, endp := 3 }

def c1wTokSome : Tokenizer :=
  { token := some c1wToken, line := 1, source := "abcdefgh", filename := "f.js" }

/-- A parent with the integer span 2..3 and a child with the span 5..7. -/
def c1wHeap : Heap :=
  setNode (setNode emptyHeap 0 (initNode (some c1wTokSome) none))
    1 (initNode (some c1TokSome) none)

def c2Base : Heap :=
  setNode (setNode (setNode emptyHeap 0 (initNode none (some "P")))
    1 (initNode none (some "A"))) 2 (initNode none (some "C"))

/-- Parent 0 with child 1 appended under relation r; node 2 is spare. -/
def c2Heap : Heap := heapOf (appendN c2Base 0 (.vNode 1) (some "r")) emptyHeap

def c3Heap : Heap := setNode emptyHeap 0 (initNode none (some "X"))

def c4Tok : Tokenizer :=
  { token := some { type := some "t", line := 1, start := 0, endp := 3 },
    line := 1, source := "a+b;", filename := "f.js" }

/-- Node 0 carries a source context over the buffer a+b; with span 0..3;
    node 1 has no source context at all. -/
def c4Heap : Heap := setNode emptyHeap 0 (initNode (some c4Tok) none)

def c5Base : Heap :=
  setattrN (setattrN
    (setNode (setNode (setNode emptyHeap 0 (initNode none (some "BinaryExpr")))
      1 (initNode none (some "Num"))) 2 (initNode none (some "Num")))
    1 "value" (.vInt 1)) 2 "value" (.vInt 2)

/-- The BinaryExpr scenario: Num value 1 appended under left, then Num
    value 2 appended under right. -/
def c5Heap : Heap :=
  heapOf (appendN (heapOf (appendN c5Base 0 (.vNode 1) (some "left")) emptyHeap)
    0 (.vNode 2) (some "right")) emptyHeap

def c6Base : Heap :=
  setNode (setNode emptyHeap 0 (initNode none (some "X")))
    1 (initNode none (some "Y"))

def c6After : Heap := heapOf (appendN c6Base 0 (.vNode 1) none) emptyHeap

def c7aHeap : Heap :=
  setattrN (setNode emptyHeap 0 (initNode none (some "X"))) 0 "flags"
    (.vList [.vStr "a", .vStr "b"])

def c7bHeap : Heap :=
  setattrN (setNode emptyHeap 0 (initNode none (some "X"))) 0 "flags" (.vList [])

def c7cHeap : Heap :=
  setattrN (setNode emptyHeap 0 (initNode none (some "X"))) 0 "flags"
    (.vList [.vInt 1])

/-- Two declaration nodes carrying value attributes, for the
    value-carrying list rendering. -/
def c7wHeap : Heap :=
  setattrN (setattrN
    (setNode (setNode emptyHeap 0 (initNode none (some "VarDecl")))
      1 (initNode none (some "VarDecl")))
    0 "value" (.vStr "x")) 1 "value" (.vStr "y")

def c8Base : Heap :=
  setNode (setNode (setNode (setNode emptyHeap 0 (initNode none (some "P")))
    1 (initNode none (some "A"))) 2 (initNode none (some "B")))
    3 (initNode none (some "C"))

/-- Parent 0 with the single child 1 (childless, kind A); node 2 is a
    distinct childless node (kind B) that was never attached to 0. -/
def c8Heap : Heap := heapOf (appendN c8Base 0 (.vNode 1) none) emptyHeap

def c9Heap : Heap := setNode emptyHeap 0 (initNode none (some "X"))

/-- The record exported from the bare node of kind X. -/
def c9CexRec : ExpVal :=
  match exportF c9Heap 3 0 with
  | .ok r => r
  | .error _ => .eVal .vNone

def c9bBase : Heap :=
  setattrN (setNode (setNode (setNode emptyHeap 0 (initNode none (some "P")))
    1 (initNode none (some "A"))) 2 (initNode none (some "C"))) 0 "n" (.vInt 5)

/-- Parent 0 of kind P with scalar attribute n, node 1 related under r,
    node 2 an unrelated child. -/
def c9bHeap : Heap :=
  heapOf (appendN (heapOf (appendN c9bBase 0 (.vNode 1) (some "r")) emptyHeap)
    0 (.vNode 2) none) emptyHeap

def c10Base : Heap :=
  setNode (setNode emptyHeap 0 (initNode none (some "X")))
    1 (initNode none (some "Y"))

def c10After : Heap := heapOf (appendN c10Base 0 (.vNode 1) none) emptyHeap

/- Heap and dictionary lemmas -/

theorem getNode_setNode (h : Heap) (i j : Nat) (o : NodeObj) :
    getNode (setNode h i o) j = if j = i then o else getNode h j := rfl

theorem alistGet_alistSet {α : Type} (d : List (String × α)) (k k2 : String) (v : α) :
    alistGet (alistSet d k v) k2 = if k = k2 then some v else alistGet d k2 := by
  induction d with
  | nil => simp [alistSet, alistGet]
  | cons p rest ih =>
    obtain ⟨k3, v3⟩ := p
    by_cases h3 : k3 = k
    · subst h3
      by_cases h2 : k3 = k2 <;> simp [alistSet, alistGet, h2]
    · by_cases h2 : k3 = k2
      · have hkk : ¬k = k2 := fun hh => h3 (h2.trans hh.symm)
        have h3b : ¬k2 = k := fun hh => hkk hh.symm
        simp [alistSet, alistGet, h3, h2, hkk, h3b]
      · simp [alistSet, alistGet, h3, h2, ih]

@[simp]
theorem getattrN_setattrN (h : Heap) (i j : Nat) (nm nm2 : String) (v : PyVal) :
    getattrN (setattrN h i nm v) j nm2 =
      if j = i then (if nm = nm2 then some v else getattrN h j nm2)
      else getattrN h j nm2 := by
  unfold getattrN setattrN
  rw [getNode_setNode]
  by_cases hj : j = i
  · subst hj
    simp [alistGet_alistSet]
  · simp [hj]

@[simp]
theorem elems_setattrN (h : Heap) (i j : Nat) (nm : String) (v : PyVal) :
    (getNode (setattrN h i nm v) j).elems = (getNode h j).elems := by
  unfold setattrN
  rw [getNode_setNode]
  by_cases hj : j = i
  · subst hj; simp
  · simp [hj]

@[simp]
theorem getattrN_pushElem (h : Heap) (i j : Nat) (nm : String) (v : PyVal) :
    getattrN (pushElem h i v) j nm = getattrN h j nm := by
  unfold getattrN pushElem
  rw [getNode_setNode]
  by_cases hj : j = i
  · subst hj; simp
  · simp [hj]

@[simp]
theorem elems_pushElem (h : Heap) (i j : Nat) (v : PyVal) :
    (getNode (pushElem h i v) j).elems =
      if j = i then (getNode h j).elems ++ [v] else (getNode h j).elems := by
  unfold pushElem
  rw [getNode_setNode]
  by_cases hj : j = i
  · subst hj; simp
  · simp [hj]

@[simp]
theorem getattrN_setElem (h : Heap) (i j idx : Nat) (nm : String) (v : PyVal) :
    getattrN (setElem h i idx v) j nm = getattrN h j nm := by
  unfold getattrN setElem
  rw [getNode_setNode]
  by_cases hj : j = i
  · subst hj; simp
  · simp [hj]

@[simp]
theorem elems_setElem (h : Heap) (i j idx : Nat) (v : PyVal) :
    (getNode (setElem h i idx v) j).elems =
      if j = i then (getNode h j).elems.set idx v else (getNode h j).elems := by
  unfold setElem
  rw [getNode_setNode]
  by_cases hj : j = i
  · subst hj; simp
  · simp [hj]

@[simp]
theorem pyTruthy_vNode (h : Heap) (i : Nat) : pyTruthy h (.vNode i) = true := rfl

@[simp]
theorem except_bind_ok {ε α β : Type} (a : α) (f : α → Except ε β) :
    (Except.ok a : Except ε α) >>= f = f a := rfl

@[simp]
theorem except_bind_error {ε α β : Type} (e : ε) (f : α → Except ε β) :
    (Except.error e : Except ε α) >>= f = .error e := rfl

@[simp]
theorem except_pure_bind {ε α β : Type} (a : α) (f : α → Except ε β) :
    (pure a : Except ε α) >>= f = f a := rfl

@[simp]
theorem ofOpt_some (v : PyVal) (e : PyErr) : ofOpt (some v) e = .ok v := rfl

@[simp]
theorem ofOpt_none (e : PyErr) : ofOpt none e = .error e := rfl

theorem startNeEnd : ("start" : String) ≠ "end" := by decide

theorem startNeParent : ("start" : String) ≠ "parent" := by decide

theorem endNeParent : ("end" : String) ≠ "parent" := by decide

/-- Evaluation of Node.append on a real node carrying a tokenizer, with
    all four span attributes present: the exact sequence of span,
    parent and relation writes followed by the list push, returning
    None. -/
theorem appendN_node_eq (h : Heap) (s k : Nat) (rel : Option String)
    (sv ev ks ke : PyVal)
    (htok : hasattrN h k "tokenizer" = true)
    (hks : getattrN h k "start" = some ks)
    (hss : getattrN h s "start" = some sv)
    (hse : getattrN h s "end" = some ev)
    (hke : getattrN h k "end" = some ke) :
    appendN h s (.vNode k) rel =
      .ok (pushElem
        (match rel with
         | some r =>
           setattrN (setattrN
             (setattrN
               (if pyLt ev ke then
                  setattrN (if pyLt ks sv then setattrN h s "start" ks else h) s "end" ke
                else (if pyLt ks sv then setattrN h s "start" ks else h))
               k "parent" (.vNode s)) s r (.vNode k)) k "rel" (.vStr r)
         | none =>
           setattrN
             (if pyLt ev ke then
                setattrN (if pyLt ks sv then setattrN h s "start" ks else h) s "end" ke
              else (if pyLt ks sv then setattrN h s "start" ks else h))
             k "parent" (.vNode s))
        s (.vNode k), .vNone) := by
  have hae : getattrN (if pyLt ks sv then setattrN h s "start" ks else h) s "end" = some ev := by
    by_cases hc : pyLt ks sv <;> simp [hc, hse, startNeEnd]
  have hbe : getattrN (if pyLt ks sv then setattrN h s "start" ks else h) k "end" = some ke := by
    by_cases hc : pyLt ks sv <;> by_cases hks2 : k = s <;>
      simp [hc, hks2, hke, startNeEnd] <;> simp [hks2] at hke <;> simp [hke]
  unfold appendN
  simp only [pyTruthy_vNode, if_true, htok, hks, hss, ofOpt_some, except_bind_ok, hae, hbe]
  rfl

/-- Evaluation of Node.append on a real node without a tokenizer: only
    the parent and relation writes happen before the list push. -/
theorem appendN_node_eq_noTok (h : Heap) (s k : Nat) (rel : Option String)
    (htok : hasattrN h k "tokenizer" = false) :
    appendN h s (.vNode k) rel =
      .ok (pushElem
        (match rel with
         | some r =>
           setattrN (setattrN (setattrN h k "parent" (.vNode s)) s r (.vNode k))
             k "rel" (.vStr r)
         | none => setattrN h k "parent" (.vNode s))
        s (.vNode k), .vNone) := by
  unfold appendN
  simp only [pyTruthy_vNode, if_true, htok, Bool.false_eq_true, if_false, except_bind_ok]
  rfl

/-- Reading the end attribute is unaffected by a conditional write to
    the start attribute. -/
theorem getattrN_span_if (h : Heap) (s j : Nat) (ks : PyVal) (c : Bool) :
    getattrN (if c then setattrN h s "start" ks else h) j "end" = getattrN h j "end" := by
  by_cases hc : c <;> by_cases hj : j = s <;> simp [hc, hj, startNeEnd]

/-- The child sequences are unaffected by a conditional attribute
    write. -/
theorem elems_span_if (h : Heap) (s j : Nat) (nm : String) (v : PyVal) (c : Bool) :
    (getNode (if c then setattrN h s nm v else h) j).elems = (getNode h j).elems := by
  by_cases hc : c <;> simp [hc]

/-- Every successful Node.append returns None and either took the
    falsy-child early return (child falsy, relation truthy, heap
    untouched) or pushed the argument onto the child sequence. -/
theorem appendN_ok_split (h : Heap) (s : Nat) (kid : PyVal) (rel : Option String)
    (h2 : Heap) (r : PyVal) (hok : appendN h s kid rel = .ok (h2, r)) :
    r = PyVal.vNone ∧
    ((pyTruthy h kid = false ∧ strTruthy rel = true ∧ h2 = h) ∨
      (getNode h2 s).elems = (getNode h s).elems ++ [kid]) := by
  by_cases ht : pyTruthy h kid = true
  · cases kid with
    | vNode kidId =>
      by_cases htok : hasattrN h kidId "tokenizer" = true
      · rcases hks : getattrN h kidId "start" with _ | ks
        · unfold appendN at hok
          simp [htok, hks] at hok
        · rcases hss : getattrN h s "start" with _ | sv
          · unfold appendN at hok
            simp [htok, hks, hss] at hok
          · rcases hse : getattrN h s "end" with _ | ev
            · unfold appendN at hok
              simp only [pyTruthy_vNode, if_true, htok, hks, hss, ofOpt_some,
                except_bind_ok, getattrN_span_if, hse, ofOpt_none, except_bind_error] at hok
              exact Except.noConfusion hok
            · rcases hke : getattrN h kidId "end" with _ | ke
              · unfold appendN at hok
                simp only [pyTruthy_vNode, if_true, htok, hks, hss, hse, ofOpt_some,
                  except_bind_ok, getattrN_span_if, hke, ofOpt_none, except_bind_error] at hok
                exact Except.noConfusion hok
              · rw [appendN_node_eq h s kidId rel sv ev ks ke htok hks hss hse hke] at hok
                injection hok with hp
                injection hp with hh hr
                subst hh
                subst hr
                refine ⟨rfl, Or.inr ?_⟩
                cases rel <;>
                  simp [elems_pushElem, elems_setattrN, elems_span_if]
      · have htokf : hasattrN h kidId "tokenizer" = false := by simpa using htok
        rw [appendN_node_eq_noTok h s kidId rel htokf] at hok
        injection hok with hp
        injection hp with hh hr
        subst hh
        subst hr
        refine ⟨rfl, Or.inr ?_⟩
        cases rel <;> simp [elems_pushElem, elems_setattrN]
    | vNone => simp [pyTruthy] at ht
    | vBool b =>
      unfold appendN at hok
      rw [if_pos ht] at hok
      simp at hok
    | vInt n =>
      unfold appendN at hok
      rw [if_pos ht] at hok
      simp at hok
    | vStr str =>
      unfold appendN at hok
      rw [if_pos ht] at hok
      simp at hok
    | vList xs =>
      unfold appendN at hok
      rw [if_pos ht] at hok
      simp at hok
    | vTok t =>
      unfold appendN at hok
      rw [if_pos ht] at hok
      simp at hok
  · have htf : pyTruthy h kid = false := by simpa using ht
    unfold appendN at hok
    rw [if_neg ht] at hok
    by_cases hr : strTruthy rel = true
    · rw [if_pos hr] at hok
      injection hok with hp
      injection hp with hh hrv
      subst hh
      subst hrv
      exact ⟨rfl, Or.inl ⟨htf, hr, rfl⟩⟩
    · rw [if_neg hr] at hok
      injection hok with hp
      injection hp with hh hrv
      subst hh
      subst hrv
      refine ⟨rfl, Or.inr ?_⟩
      simp [elems_pushElem]

/- Claims -/

/-- C3, counterexample: appending an empty slot together with the empty
    string as relation name is not a no-op; the slot is appended to the
    child sequence (the empty string is falsy, so the guard that blocks
    relation-tagged empty slots does not fire). -/
theorem claimC3_counterexample :
    appendN c3Heap 0 PyVal.vNone (some "") =
      .ok (pushElem c3Heap 0 PyVal.vNone, PyVal.vNone) ∧
    afterElems (appendN c3Heap 0 PyVal.vNone (some "")) 0 = some [PyVal.vNone] ∧
    (getNode c3Heap 0).elems = [] :=
  ⟨rfl, rfl, rfl⟩

/-- C3, amended: calling append with an empty slot (no node) together
    with a non-empty relation name is a no-op; the call returns None and
    the heap, hence the child sequence and relation attributes of every
    node, is unchanged. -/
theorem claimC3_amended (h : Heap) (s : Nat) (r : String) (hr : r ≠ "") :
    appendN h s PyVal.vNone (some r) = .ok (h, PyVal.vNone) := by
  unfold appendN
  simp [pyTruthy, strTruthy, hr]

/-- C3, witness: the amended no-op behaviour at a concrete node and the
    relation name r. -/
theorem claimC3_witness :
    appendN c3Heap 0 PyVal.vNone (some "r") = .ok (c3Heap, PyVal.vNone) :=
  claimC3_amended c3Heap 0 "r" (by decide)

/-- C5: building a BinaryExpr node, appending a Num child with value 1
    under left and a Num child with value 2 under right yields children
    length 2 in append order, the relations left and right bound to the
    two children, no unrelated children, and exactly the expected
    non-pretty tagged-tree output. -/
theorem claimC5 :
    (getNode c5Heap 0).elems = [PyVal.vNode 1, PyVal.vNode 2] ∧
    getattrN c5Heap 0 "left" = some (PyVal.vNode 1) ∧
    getattrN c5Heap 0 "right" = some (PyVal.vNode 2) ∧
    getUnrelatedChildren c5Heap 0 = [] ∧
    toXmlF c5Heap 5 0 false 0 =
      .ok "<BinaryExpr><left><Num value=\"1\"/></left><right><Num value=\"2\"/></right></BinaryExpr>" :=
  ⟨rfl, rfl, rfl, rfl, by rfl⟩

/-- C6, counterexample: append does push the child, but its return value
    is None (the value of the underlying list.append), not the mutated
    child-sequence reference (which would be the node itself). -/
theorem claimC6_counterexample :
    retValOf (appendN c6Base 0 (PyVal.vNode 1) none) = some PyVal.vNone ∧
    afterElems (appendN c6Base 0 (PyVal.vNode 1) none) 0 = some [PyVal.vNode 1] ∧
    some PyVal.vNone ≠ some (PyVal.vNode 0) := by
  refine ⟨rfl, rfl, ?_⟩
  intro hcon
  injection hcon with hv
  exact PyVal.noConfusion hv

/-- C6, amended: every successful append returns None (the return value
    of list.append), not the sequence reference, so the result cannot be
    chained; the child or slot is nevertheless appended to the child
    sequence, except on the falsy-child early return which leaves the
    heap unchanged. -/
theorem claimC6_amended (h : Heap) (s : Nat) (kid : PyVal) (rel : Option String)
    (h2 : Heap) (r : PyVal) (hok : appendN h s kid rel = .ok (h2, r)) :
    r = PyVal.vNone ∧
    ((getNode h2 s).elems = (getNode h s).elems ++ [kid] ∨ h2 = h) := by
  obtain ⟨hr, hsplit⟩ := appendN_ok_split h s kid rel h2 r hok
  exact ⟨hr, hsplit.elim (fun hc => Or.inr hc.2.2) Or.inl⟩

/-- C6, witness: the amended behaviour at a concrete append call. -/
theorem claimC6_witness :
    PyVal.vNone = PyVal.vNone ∧
    ((getNode c6After 0).elems = (getNode c6Base 0).elems ++ [PyVal.vNode 1] ∨
      c6After = c6Base) :=
  claimC6_amended c6Base 0 (PyVal.vNode 1) none c6After PyVal.vNone rfl

/-- C8, counterexample: node 2 is not present by identity in the child
    sequence of node 0 (whose only child is node 1), yet replace
    succeeds: list.index matches node 1 because distinct childless nodes
    are equal as lists, so node 1 is replaced by node 3 and node 2 is
    returned, with no failure and a mutated sequence. -/
theorem claimC8_counterexample :
    pyIs (PyVal.vNode 1) (PyVal.vNode 2) = false ∧
    (getNode c8Heap 0).elems = [PyVal.vNode 1] ∧
    retValOf (replaceN c8Heap 10 0 (PyVal.vNode 2) (PyVal.vNode 3)) =
      some (PyVal.vNode 2) ∧
    afterElems (replaceN c8Heap 10 0 (PyVal.vNode 2) (PyVal.vNode 3)) 0 =
      some [PyVal.vNode 3] :=
  ⟨rfl, rfl, by rfl, by rfl⟩

/-- C8, amended: replace fails with the child-not-found failure (the
    ValueError of list.index) exactly when no entry of the child
    sequence is identical or Python-list-equal to the old child; absence
    by identity alone is not sufficient.  The error result carries no
    heap, so the node is unchanged. -/
theorem claimC8_amended (h : Heap) (fuel p : Nat) (kid repl : PyVal)
    (hidx : indexFrom h fuel kid (getNode h p).elems = none) :
    replaceN h fuel p kid repl = .error PyErr.valueError := by
  unfold replaceN
  simp [hidx]

/-- C8, witness: the amended failure at a childless concrete node. -/
theorem claimC8_witness :
    replaceN c8Base 5 3 (PyVal.vNode 1) (PyVal.vNode 2) = .error PyErr.valueError :=
  claimC8_amended c8Base 5 3 (PyVal.vNode 1) (PyVal.vNode 2) rfl

/-- C10: every node is truthy through the overridden __nonzero__, even
    with zero children, so append never classifies a real node as an
    empty slot (a successful append of a node always pushes it onto the
    child sequence), and only falsy non-node values take the empty-slot
    path (early return when a truthy relation is given, a plain push of
    the falsy value otherwise). -/
theorem claimC10 :
    (∀ n : NodeObj, nonzeroN n = true) ∧
    (∀ (h : Heap) (i : Nat), pyTruthy h (PyVal.vNode i) = true) ∧
    (∀ (h : Heap) (s i : Nat) (rel : Option String) (h2 : Heap) (r : PyVal),
      appendN h s (PyVal.vNode i) rel = .ok (h2, r) →
      (getNode h2 s).elems = (getNode h s).elems ++ [PyVal.vNode i]) ∧
    (∀ (h : Heap) (s : Nat) (v : PyVal) (rel : Option String),
      pyTruthy h v = false →
      appendN h s v rel =
        if strTruthy rel then .ok (h, PyVal.vNone)
        else .ok (pushElem h s v, PyVal.vNone)) := by
  refine ⟨fun _ => rfl, fun _ _ => rfl, ?_, ?_⟩
  · intro h s i rel h2 r hok
    obtain ⟨_, hsplit⟩ := appendN_ok_split h s (PyVal.vNode i) rel h2 r hok
    rcases hsplit with ⟨hf, _, _⟩ | he
    · rw [pyTruthy_vNode] at hf
      exact absurd hf (by simp)
    · exact he
  · intro h s v rel hf
    unfold appendN
    rw [if_neg (by simp [hf])]

/-- C10, witness: the node-push behaviour and the falsy-value behaviour
    at concrete inputs. -/
theorem claimC10_witness :
    (getNode c10After 0).elems = (getNode c10Base 0).elems ++ [PyVal.vNode 1] ∧
    appendN c10Base 0 PyVal.vNone none =
      (if strTruthy none then .ok (c10Base, PyVal.vNone)
       else .ok (pushElem c10Base 0 PyVal.vNone, PyVal.vNone)) :=
  ⟨claimC10.2.2.1 c10Base 0 1 none c10After PyVal.vNone rfl,
   claimC10.2.2.2 c10Base 0 PyVal.vNone none rfl⟩

/-- C4: on every node with a source context, getSource returns the
    buffer slice from the start attribute to the end attribute, an
    unset or None bound meaning the buffer start or the buffer end; on
    every node without a source context the call fails with the
    no-source-context failure (the guard dereferences the missing
    tokenizer attribute). -/
theorem claimC4 :
    (∀ (h : Heap) (i : Nat) (t : Tokenizer) (a b : Option Int),
      getattrN h i "tokenizer" = some (.vTok t) →
      (getattrN h i "start").getD .vNone = optIntPv a →
      (getattrN h i "end").getD .vNone = optIntPv b →
      getSourceN h i = .ok (pySliceStr t.source a b)) ∧
    (∀ (h : Heap) (i : Nat),
      getattrN h i "tokenizer" = none →
      getSourceN h i = .error (PyErr.attributeError "tokenizer")) := by
  constructor
  · intro h i t a b htok hs he
    unfold getSourceN
    rw [htok]
    simp only [ofOpt_some, except_bind_ok]
    cases a <;> cases b <;>
      simp_all [pyTruthy, optIntPv, sliceIndex]
  · intro h i htok
    unfold getSourceN
    rw [htok]
    rfl

/-- C4, witness: the slice behaviour on the node built over the buffer
    a+b; with span 0..3, and the failure on a context-free node. -/
theorem claimC4_witness :
    getSourceN c4Heap 0 = .ok (pySliceStr c4Tok.source (some 0) (some 3)) ∧
    getSourceN c4Heap 1 = .error (PyErr.attributeError "tokenizer") :=
  ⟨claimC4.1 c4Heap 0 c4Tok (some 0) (some 3) rfl rfl rfl,
   claimC4.2 c4Heap 1 rfl⟩

/-- The value-attribute pass of the value-carrying list rendering:
    when every listed node carries the matching value attribute, the
    pass returns exactly those values. -/
theorem mapValues_ok (h : Heap) (ids : List Nat) (vs : List String)
    (hall : List.Forall₂ (fun i v => getattrN h i "value" = some (PyVal.vStr v)) ids vs) :
    (ids.map PyVal.vNode).mapM
      (fun x =>
        match x with
        | .vNode i => ofOpt (getattrN h i "value") (.attributeError "value")
        | _ => Except.error (.attributeError "value")) =
      Except.ok (vs.map PyVal.vStr) := by
  induction hall with
  | nil => rfl
  | cons hhead _ ih =>
    simp only [List.map_cons, List.mapM_cons, hhead, ofOpt_some, ih]
    rfl

theorem map_strOfVal_vStr (ss : List String) :
    (ss.map PyVal.vStr).map strOfVal = ss := by
  induction ss with
  | nil => rfl
  | cons s rest ih => simp [ih, strOfVal]

/-- C7: a list-valued attribute serializes as follows: an empty list is
    skipped entirely (no attribute emitted, no failure); a non-empty
    list renders as the comma-join of its elements, taking the value
    attribute of each element for the value-carrying names (varDecls,
    funDecls) and the elements themselves as plain text otherwise; and
    the join fails with the serialization failure naming the attribute
    when some element is not text.  The last three conjuncts anchor the
    three behaviours in full toXml runs. -/
theorem claimC7 :
    (∀ (h : Heap) (name : String), xmlListValue h name [] = .ok none) ∧
    (∀ (h : Heap) (name : String) (ss : List String),
      valueListName name = false → ss ≠ [] →
      xmlListValue h name (ss.map PyVal.vStr) =
        .ok (some (String.intercalate "," ss))) ∧
    (∀ (h : Heap) (name : String) (ids : List Nat) (vs : List String),
      valueListName name = true → ids ≠ [] →
      List.Forall₂ (fun i v => getattrN h i "value" = some (PyVal.vStr v)) ids vs →
      xmlListValue h name (ids.map PyVal.vNode) =
        .ok (some (String.intercalate "," vs))) ∧
    (∀ (h : Heap) (name : String) (xs : List PyVal),
      valueListName name = false → xs ≠ [] →
      (∃ x ∈ xs, isStrVal x = false) →
      xmlListValue h name xs =
        .error (PyErr.exception ("Invalid attribute list child at: " ++ name))) ∧
    toXmlF c7aHeap 3 0 false 0 = .ok "<X flags=\"a,b\"/>" ∧
    toXmlF c7bHeap 3 0 false 0 = .ok "<X/>" ∧
    toXmlF c7cHeap 3 0 false 0 =
      .error (PyErr.exception "Invalid attribute list child at: flags") := by
  refine ⟨fun h name => rfl, ?_, ?_, ?_, by rfl, by rfl, by rfl⟩
  · intro h name ss hv hne
    unfold xmlListValue
    rw [if_neg (by simp [hne])]
    rw [if_neg (by simp [hv])]
    simp only [except_pure_bind]
    rw [if_pos (by simp [List.all_map, isStrVal, Function.comp])]
    rw [map_strOfVal_vStr]
  · intro h name ids vs hv hne hall
    unfold xmlListValue
    rw [if_neg (by simp [hne])]
    rw [if_pos (by simp [hv])]
    rw [mapValues_ok h ids vs hall]
    simp only [except_bind_ok]
    rw [if_pos (by simp [List.all_map, isStrVal, Function.comp])]
    rw [map_strOfVal_vStr]
  · intro h name xs hv hne hex
    unfold xmlListValue
    rw [if_neg (by simp [hne])]
    rw [if_neg (by simp [hv])]
    simp only [except_pure_bind]
    rw [if_neg ?_]
    intro hall
    obtain ⟨x, hmem, hxf⟩ := hex
    have := List.all_eq_true.mp hall x hmem
    rw [hxf] at this
    exact Bool.noConfusion this

/-- C7, witness: the four list behaviours at concrete inputs. -/
theorem claimC7_witness :
    xmlListValue emptyHeap "flags" [] = .ok none ∧
    xmlListValue emptyHeap "flags" (["a", "b"].map PyVal.vStr) =
      .ok (some (String.intercalate "," ["a", "b"])) ∧
    xmlListValue c7wHeap "varDecls" ([0, 1].map PyVal.vNode) =
      .ok (some (String.intercalate "," ["x", "y"])) ∧
    xmlListValue emptyHeap "flags" [PyVal.vInt 1] =
      .error (PyErr.exception ("Invalid attribute list child at: " ++ "flags")) :=
  ⟨claimC7.1 emptyHeap "flags",
   claimC7.2.1 emptyHeap "flags" ["a", "b"] rfl (by simp),
   claimC7.2.2.1 c7wHeap "varDecls" [0, 1] ["x", "y"] rfl (by simp)
     (.cons (by rfl) (.cons (by rfl) .nil)),
   claimC7.2.2.2.1 emptyHeap "flags" [PyVal.vInt 1] rfl (by simp)
     ⟨PyVal.vInt 1, by simp, rfl⟩⟩

/-- C2, counterexample: node 0 holds node 1 at index 0 under relation r;
    after replace(node 1, node 2) the relation is transferred to node 2
    and the parent attribute r rebound, but the replaced node 1 still
    carries its rel marker r, although the claim says the old child
    carries no relation marker afterwards. -/
theorem claimC2_counterexample :
    afterAttr (replaceN c2Heap 10 0 (PyVal.vNode 1) (PyVal.vNode 2)) 1 "rel" =
      some (PyVal.vStr "r") ∧
    retValOf (replaceN c2Heap 10 0 (PyVal.vNode 1) (PyVal.vNode 2)) =
      some (PyVal.vNode 1) ∧
    afterAttr (replaceN c2Heap 10 0 (PyVal.vNode 1) (PyVal.vNode 2)) 2 "rel" =
      some (PyVal.vStr "r") ∧
    afterAttr (replaceN c2Heap 10 0 (PyVal.vNode 1) (PyVal.vNode 2)) 0 "r" =
      some (PyVal.vNode 2) ∧
    afterElems (replaceN c2Heap 10 0 (PyVal.vNode 1) (PyVal.vNode 2)) 0 =
      some [PyVal.vNode 2] :=
  ⟨by rfl, by rfl, by rfl, by rfl, by rfl⟩

/-- C2, amended: when list.index finds the old child at index i (it
    matches by identity or Python list equality, which is index i when
    the old child sits there and no earlier entry matches), replace
    puts the new child at index i leaving all other positions
    unchanged, returns the old child, rebinds the parent attribute r to
    the new child and marks the new child with r, but the rel marker of
    the old child is left in place, not cleared. -/
theorem claimC2_amended (h : Heap) (fuel p oldId newId i : Nat) (r : String)
    (hne1 : oldId ≠ p) (hne2 : newId ≠ p) (hne3 : oldId ≠ newId)
    (hidx : indexFrom h fuel (.vNode oldId) (getNode h p).elems = some i)
    (hrel : getattrN h oldId "rel" = some (.vStr r)) :
    ∃ h2, replaceN h fuel p (.vNode oldId) (.vNode newId) = .ok (h2, .vNode oldId) ∧
      (getNode h2 p).elems = ((getNode h p).elems).set i (.vNode newId) ∧
      getattrN h2 p r = some (.vNode newId) ∧
      getattrN h2 newId "rel" = some (.vStr r) ∧
      getattrN h2 oldId "rel" = some (.vStr r) := by
  unfold replaceN
  rw [hidx]
  have hrel1 : getattrN (setElem h p i (PyVal.vNode newId)) oldId "rel" =
      some (PyVal.vStr r) := by
    rw [getattrN_setElem]
    exact hrel
  have hhas : hasattrN (setElem h p i (PyVal.vNode newId)) oldId "rel" = true := by
    simp [hasattrN, hrel1]
  simp only [except_bind_ok, except_pure_bind, hhas, if_true, hrel1, ofOpt_some]
  refine ⟨_, rfl, ?_, ?_, ?_, ?_⟩
  · simp [elems_setattrN, elems_setElem]
  · simp
  · simp [hne2]
  · simp [hne1, hne3, hrel1]

/-- C2, witness: the amended replace behaviour on the concrete tree
    where node 0 holds node 1 under relation r and node 2 replaces it. -/
theorem claimC2_witness :
    ∃ h2, replaceN c2Heap 10 0 (PyVal.vNode 1) (PyVal.vNode 2) =
        .ok (h2, PyVal.vNode 1) ∧
      (getNode h2 0).elems = ((getNode c2Heap 0).elems).set 0 (PyVal.vNode 2) ∧
      getattrN h2 0 "r" = some (PyVal.vNode 2) ∧
      getattrN h2 2 "rel" = some (PyVal.vStr "r") ∧
      getattrN h2 1 "rel" = some (PyVal.vStr "r") :=
  claimC2_amended c2Heap 10 0 1 2 0 "r" (by decide) (by decide) (by decide)
    (by rfl) (by rfl)

/-- One append of a child whose span bounds are integers onto a parent
    whose span bounds are integers: the parent bounds become the
    minimum and maximum, everything else is untouched except the parent
    pointer of the child and the child sequence of the parent. -/
theorem appendN_int_span (h : Heap) (p k : Nat) (s0 e0 ks ke : Int)
    (hkp : k ≠ p)
    (hps : getattrN h p "start" = some (.vInt s0))
    (hpe : getattrN h p "end" = some (.vInt e0))
    (htok : hasattrN h k "tokenizer" = true)
    (hks : getattrN h k "start" = some (.vInt ks))
    (hke : getattrN h k "end" = some (.vInt ke)) :
    ∃ h2, appendN h p (.vNode k) none = .ok (h2, .vNone) ∧
      getattrN h2 p "start" = some (.vInt (min s0 ks)) ∧
      getattrN h2 p "end" = some (.vInt (max e0 ke)) ∧
      (∀ j nm, j ≠ p →
        getattrN h2 j nm =
          if j = k ∧ nm = "parent" then some (.vNode p) else getattrN h j nm) ∧
      (∀ j, (getNode h2 j).elems =
        if j = p then (getNode h j).elems ++ [.vNode k] else (getNode h j).elems) := by
  rw [appendN_node_eq h p k none (.vInt s0) (.vInt e0) (.vInt ks) (.vInt ke)
    htok hks hps hpe hke]
  refine ⟨_, rfl, ?_, ?_, ?_, ?_⟩
  · have hq : ¬(p = k) := fun hh => hkp hh.symm
    by_cases hlt : ks < s0
    · have h1 : pyLt (PyVal.vInt ks) (PyVal.vInt s0) = true := by simp [pyLt, hlt]
      have hmin : min s0 ks = ks := min_eq_right (le_of_lt hlt)
      by_cases h2 : pyLt (PyVal.vInt e0) (PyVal.vInt ke) = true <;>
        simp [h1, h2, hq, startNeEnd, hmin]
    · have h1 : pyLt (PyVal.vInt ks) (PyVal.vInt s0) = false := by simp [pyLt, hlt]
      have hmin : min s0 ks = s0 := min_eq_left (le_of_not_lt hlt)
      by_cases h2 : pyLt (PyVal.vInt e0) (PyVal.vInt ke) = true <;>
        simp [h1, h2, hq, startNeEnd, hmin, hps]
  · have hq : ¬(p = k) := fun hh => hkp hh.symm
    by_cases hlt : e0 < ke
    · have h2 : pyLt (PyVal.vInt e0) (PyVal.vInt ke) = true := by simp [pyLt, hlt]
      have hmax : max e0 ke = ke := max_eq_right (le_of_lt hlt)
      by_cases h1 : pyLt (PyVal.vInt ks) (PyVal.vInt s0) = true <;>
        simp [h1, h2, hq, startNeEnd, hmax]
    · have h2 : pyLt (PyVal.vInt e0) (PyVal.vInt ke) = false := by simp [pyLt, hlt]
      have hmax : max e0 ke = e0 := max_eq_left (le_of_not_lt hlt)
      by_cases h1 : pyLt (PyVal.vInt ks) (PyVal.vInt s0) = true <;>
        simp [h1, h2, hq, startNeEnd, hmax, hpe]
  · intro j nm hjp
    by_cases hjk : j = k
    · subst hjk
      by_cases hnm : "parent" = nm
      · subst hnm
        simp [hjp]
      · have hnm2 : ¬(nm = "parent") := fun hh => hnm hh.symm
        by_cases h1 : pyLt (PyVal.vInt ks) (PyVal.vInt s0) <;>
          by_cases h2 : pyLt (PyVal.vInt e0) (PyVal.vInt ke) <;>
            simp [h1, h2, hjp, hnm, hnm2]
    · by_cases h1 : pyLt (PyVal.vInt ks) (PyVal.vInt s0) <;>
        by_cases h2 : pyLt (PyVal.vInt e0) (PyVal.vInt ke) <;>
          simp [h1, h2, hjp, hjk]
  · intro j
    by_cases hj : j = p <;>
      by_cases h1 : pyLt (PyVal.vInt ks) (PyVal.vInt s0) <;>
        by_cases h2 : pyLt (PyVal.vInt e0) (PyVal.vInt ke) <;>
          simp [h1, h2, hj]

/-- Folding appendN_int_span over a list of span-carrying children:
    the parent bounds end as the minimum and maximum over the initial
    bounds and every child bound. -/
theorem appendAll_span (kids : List (Nat × Int × Int)) (h : Heap) (p : Nat)
    (s0 e0 : Int)
    (hps : getattrN h p "start" = some (.vInt s0))
    (hpe : getattrN h p "end" = some (.vInt e0))
    (hk : ∀ t ∈ kids, t.1 ≠ p ∧ hasattrN h t.1 "tokenizer" = true ∧
      getattrN h t.1 "start" = some (.vInt t.2.1) ∧
      getattrN h t.1 "end" = some (.vInt t.2.2)) :
    ∃ h2, appendAll h p (kids.map (fun t => t.1)) = .ok h2 ∧
      getattrN h2 p "start" = some (.vInt (foldMin s0 kids)) ∧
      getattrN h2 p "end" = some (.vInt (foldMax e0 kids)) := by
  induction kids generalizing h s0 e0 with
  | nil => exact ⟨h, rfl, by simpa [foldMin] using hps, by simpa [foldMax] using hpe⟩
  | cons t rest ih =>
    obtain ⟨hkp, htok, hks, hke⟩ := hk t (by simp)
    obtain ⟨h2, hap, hs2, he2, hpres, _⟩ :=
      appendN_int_span h p t.1 s0 e0 t.2.1 t.2.2 hkp hps hpe htok hks hke
    have hk2 : ∀ u ∈ rest, u.1 ≠ p ∧ hasattrN h2 u.1 "tokenizer" = true ∧
        getattrN h2 u.1 "start" = some (.vInt u.2.1) ∧
        getattrN h2 u.1 "end" = some (.vInt u.2.2) := by
      intro u hu
      obtain ⟨hup, hutok, hus, hue⟩ := hk u (List.mem_cons_of_mem t hu)
      have hg : ∀ nm, nm ≠ "parent" → getattrN h2 u.1 nm = getattrN h u.1 nm := by
        intro nm hnm
        rw [hpres u.1 nm hup]
        simp [hnm]
      refine ⟨hup, ?_, ?_, ?_⟩
      · rw [hasattrN, hg "tokenizer" (by decide)]
        exact hutok
      · rw [hg "start" (by decide)]
        exact hus
      · rw [hg "end" (by decide)]
        exact hue
    obtain ⟨h3, hap3, hs3, he3⟩ := ih h2 (min s0 t.2.1) (max e0 t.2.2) hs2 he2 hk2
    refine ⟨h3, ?_, ?_, ?_⟩
    · simp only [List.map_cons, appendAll, hap, except_bind_ok]
      exact hap3
    · simpa [foldMin] using hs3
    · simpa [foldMax] using he3

theorem foldMin_le (s0 : Int) (kids : List (Nat × Int × Int)) :
    foldMin s0 kids ≤ s0 := by
  induction kids generalizing s0 with
  | nil => simp [foldMin]
  | cons t rest ih =>
    have h1 : foldMin (min s0 t.2.1) rest ≤ min s0 t.2.1 := ih (min s0 t.2.1)
    have h2 : foldMin s0 (t :: rest) = foldMin (min s0 t.2.1) rest := rfl
    rw [h2]
    exact le_trans h1 (min_le_left _ _)

theorem le_foldMax (e0 : Int) (kids : List (Nat × Int × Int)) :
    e0 ≤ foldMax e0 kids := by
  induction kids generalizing e0 with
  | nil => simp [foldMax]
  | cons t rest ih =>
    have h1 : max e0 t.2.2 ≤ foldMax (max e0 t.2.2) rest := ih (max e0 t.2.2)
    have h2 : foldMax e0 (t :: rest) = foldMax (max e0 t.2.2) rest := rfl
    rw [h2]
    exact le_trans (le_max_left _ _) h1

/-- C1, counterexample: the parent node has both span bounds unset
    (None); appending a child carrying the span 5..7 leaves the parent
    start at None while adopting the child end, although the claim says
    the node adopts both of the child bounds.  Python 2 orders None
    below every integer, so the test child.start < self.start is false
    when self.start is None. -/
theorem claimC1_counterexample :
    getattrN c1Heap 0 "start" = some PyVal.vNone ∧
    getattrN c1Heap 0 "end" = some PyVal.vNone ∧
    getattrN c1Heap 1 "start" = some (PyVal.vInt 5) ∧
    getattrN c1Heap 1 "end" = some (PyVal.vInt 7) ∧
    afterAttr (appendN c1Heap 0 (PyVal.vNode 1) none) 0 "start" = some PyVal.vNone ∧
    afterAttr (appendN c1Heap 0 (PyVal.vNode 1) none) 0 "end" = some (PyVal.vInt 7) :=
  ⟨rfl, rfl, rfl, rfl, by rfl, by rfl⟩

/-- C1, amended: when the node and every appended span-bearing child
    carry integer bounds, the bounds after any such sequence of appends
    (each under no relation name, since a relation name is an attribute
    write that could alias the span fields) are exactly the minimum and
    maximum over the initial bounds and all child bounds, hence start
    is at most end whenever the initial bounds are ordered, and the
    span is the minimal covering one.  But
    when both node bounds are unset (None), appending a span-bearing
    child adopts only the child end: the start stays None, because the
    Python 2 ordering places None below every integer so the
    less-than test never replaces an unset start. -/
theorem claimC1_amended :
    (∀ (kids : List (Nat × Int × Int)) (h : Heap) (p : Nat) (s0 e0 : Int),
      getattrN h p "start" = some (.vInt s0) →
      getattrN h p "end" = some (.vInt e0) →
      (∀ t ∈ kids, t.1 ≠ p ∧ hasattrN h t.1 "tokenizer" = true ∧
        getattrN h t.1 "start" = some (.vInt t.2.1) ∧
        getattrN h t.1 "end" = some (.vInt t.2.2)) →
      ∃ h2, appendAll h p (kids.map (fun t => t.1)) = .ok h2 ∧
        getattrN h2 p "start" = some (.vInt (foldMin s0 kids)) ∧
        getattrN h2 p "end" = some (.vInt (foldMax e0 kids)) ∧
        (s0 ≤ e0 → foldMin s0 kids ≤ foldMax e0 kids)) ∧
    (∀ (h : Heap) (p k : Nat) (ks ke : Int),
      k ≠ p →
      getattrN h p "start" = some PyVal.vNone →
      getattrN h p "end" = some PyVal.vNone →
      hasattrN h k "tokenizer" = true →
      getattrN h k "start" = some (.vInt ks) →
      getattrN h k "end" = some (.vInt ke) →
      ∃ h2, appendN h p (.vNode k) none = .ok (h2, .vNone) ∧
        getattrN h2 p "start" = some PyVal.vNone ∧
        getattrN h2 p "end" = some (.vInt ke)) := by
  constructor
  · intro kids h p s0 e0 hps hpe hk
    obtain ⟨h2, hap, hs, he⟩ := appendAll_span kids h p s0 e0 hps hpe hk
    refine ⟨h2, hap, hs, he, fun hle => ?_⟩
    exact le_trans (foldMin_le s0 kids) (le_trans hle (le_foldMax e0 kids))
  · intro h p k ks ke hkp hps hpe htok hks hke
    rw [appendN_node_eq h p k none PyVal.vNone PyVal.vNone (.vInt ks) (.vInt ke)
      htok hks hps hpe hke]
    have h1 : pyLt (PyVal.vInt ks) PyVal.vNone = false := rfl
    have h2 : pyLt PyVal.vNone (PyVal.vInt ke) = true := rfl
    have hq : ¬(p = k) := fun hh => hkp hh.symm
    refine ⟨_, rfl, ?_, ?_⟩
    · simp [h1, h2, hq, startNeEnd, hps]
    · simp [h1, h2, hq]

/-- C1, witness: the two amended behaviours at concrete trees (a parent
    with span 2..3 receiving a child with span 5..7, and a parent with
    unset bounds receiving the same child). -/
theorem claimC1_witness :
    (∃ h2, appendAll c1wHeap 0 ([((1 : Nat), (5 : Int), (7 : Int))].map (fun t => t.1)) = .ok h2 ∧
      getattrN h2 0 "start" = some (.vInt (foldMin 2 [(1, 5, 7)])) ∧
      getattrN h2 0 "end" = some (.vInt (foldMax 3 [(1, 5, 7)])) ∧
      ((2 : Int) ≤ 3 → foldMin 2 [((1 : Nat), (5 : Int), (7 : Int))] ≤ foldMax 3 [(1, 5, 7)])) ∧
    (∃ h2, appendN c1Heap 0 (.vNode 1) none = .ok (h2, .vNone) ∧
      getattrN h2 0 "start" = some PyVal.vNone ∧
      getattrN h2 0 "end" = some (.vInt 7)) :=
  ⟨claimC1_amended.1 [(1, 5, 7)] c1wHeap 0 2 3 rfl rfl
    (by
      intro t ht
      simp only [List.mem_singleton] at ht
      subst ht
      exact ⟨by decide, rfl, rfl, rfl⟩),
   claimC1_amended.2 c1Heap 0 1 5 7 (by decide) rfl rfl rfl rfl rfl⟩

theorem alistGet_mem {α : Type} (d : List (String × α)) (k : String) (v : α)
    (hget : alistGet d k = some v) : (k, v) ∈ d := by
  induction d with
  | nil => exact absurd hget (by simp [alistGet])
  | cons p rest ih =>
    obtain ⟨k2, v2⟩ := p
    by_cases hk : k2 = k
    · subst hk
      simp [alistGet] at hget
      subst hget
      exact List.mem_cons_self _ _
    · simp [alistGet, hk] at hget
      exact List.mem_cons_of_mem _ (ih hget)

theorem exclFreeEntries_append (es1 es2 : List (String × ExpVal)) :
    exclFreeEntries (es1 ++ es2) = (exclFreeEntries es1 && exclFreeEntries es2) := by
  induction es1 with
  | nil => simp [exclFreeEntries]
  | cons p rest ih =>
    obtain ⟨k, v⟩ := p
    simp [exclFreeEntries, ih, Bool.and_assoc]

theorem exclFreeEntries_mem (es : List (String × ExpVal)) (k : String) (v : ExpVal)
    (hall : exclFreeEntries es = true) (hmem : (k, v) ∈ es) :
    exportExcludedName k = false ∧ leadingUnderscore k = false ∧ exclFree v = true := by
  induction es with
  | nil => exact absurd hmem (by simp)
  | cons p rest ih =>
    obtain ⟨k2, v2⟩ := p
    simp only [exclFreeEntries, Bool.and_eq_true, Bool.not_eq_true'] at hall
    obtain ⟨⟨⟨h1, h2⟩, h3⟩, h4⟩ := hall
    rcases List.mem_cons.mp hmem with heq | hmem2
    · injection heq with hk hv
      subst hk
      subst hv
      exact ⟨h1, h2, h3⟩
    · exact ih h4 hmem2

theorem exclFreeEntries_alistSet (es : List (String × ExpVal)) (k : String) (v : ExpVal)
    (hk1 : exportExcludedName k = false) (hk2 : leadingUnderscore k = false)
    (hv : exclFree v = true) (hes : exclFreeEntries es = true) :
    exclFreeEntries (alistSet es k v) = true := by
  induction es with
  | nil => simp [alistSet, exclFreeEntries, hk1, hk2, hv]
  | cons p rest ih =>
    obtain ⟨k2, v2⟩ := p
    simp only [exclFreeEntries, Bool.and_eq_true, Bool.not_eq_true'] at hes
    obtain ⟨⟨⟨h1, h2⟩, h3⟩, h4⟩ := hes
    by_cases hkk : k2 = k
    · subst hkk
      simp [alistSet, exclFreeEntries, h1, h2, hv, h4]
    · simp [alistSet, hkk, exclFreeEntries, h1, h2, h3, ih h4]

theorem exclFreeList_append (xs ys : List ExpVal) :
    exclFreeList (xs ++ ys) = (exclFreeList xs && exclFreeList ys) := by
  induction xs with
  | nil => simp [exclFreeList]
  | cons v rest ih => simp [exclFreeList, ih, Bool.and_assoc]

theorem exclFreeList_map_eVal (xs : List PyVal) :
    exclFreeList (xs.map ExpVal.eVal) = true := by
  induction xs with
  | nil => rfl
  | cons v rest ih => simp [exclFreeList, exclFree, ih]

theorem childAppend_excl (attrs : List (String × ExpVal)) (e : ExpVal)
    (attrs2 : List (String × ExpVal))
    (ha : exclFreeEntries attrs = true) (he : exclFree e = true)
    (hc : childAppend attrs e = .ok attrs2) : exclFreeEntries attrs2 = true := by
  unfold childAppend at hc
  rcases hget : alistGet attrs "children" with _ | v
  · rw [hget] at hc
    simp only [Except.ok.injEq] at hc
    subst hc
    rw [exclFreeEntries_append]
    simp only [ha, Bool.true_and, exclFreeEntries, exclFree, exclFreeList, he]
    rfl
  · rw [hget] at hc
    have hv := (exclFreeEntries_mem attrs "children" v ha
      (alistGet_mem attrs "children" v hget)).2.2
    cases v with
    | eList xs =>
      simp only [Except.ok.injEq] at hc
      subst hc
      refine exclFreeEntries_alistSet attrs "children" _ rfl rfl ?_ ha
      have hxs : exclFreeList xs = true := hv
      simp [exclFree, exclFreeList_append, hxs, exclFreeList, he]
    | eVal pv =>
      cases pv with
      | vList xs =>
        simp only [Except.ok.injEq] at hc
        subst hc
        refine exclFreeEntries_alistSet attrs "children" _ rfl rfl ?_ ha
        simp [exclFree, exclFreeList_append, exclFreeList_map_eVal, exclFreeList, he]
      | vNone => exact Except.noConfusion hc
      | vBool b => exact Except.noConfusion hc
      | vInt n => exact Except.noConfusion hc
      | vStr s => exact Except.noConfusion hc
      | vTok t => exact Except.noConfusion hc
      | vNode i => exact Except.noConfusion hc
    | eRec es => exact Except.noConfusion hc

theorem exportAttrs_excl (h : Heap) (exp : Nat → Except PyErr ExpVal)
    (hexp : ∀ i e, exp i = .ok e → exclFree e = true) :
    ∀ (names : List String) (n : NodeObj) (es : List (String × ExpVal)),
      exportAttrs h exp names n = .ok es → exclFreeEntries es = true := by
  intro names
  induction names with
  | nil =>
    intro n es hok
    unfold exportAttrs at hok
    simp only [Except.ok.injEq] at hok
    subst hok
    rfl
  | cons name rest ih =>
    intro n es hok
    unfold exportAttrs at hok
    by_cases hskip : (exportExcludedName name || leadingUnderscore name) = true
    · rw [if_pos hskip] at hok
      exact ih n es hok
    · have hF : (exportExcludedName name || leadingUnderscore name) = false := by
        simpa using hskip
      have hx1 : exportExcludedName name = false := by
        cases hv1 : exportExcludedName name
        · rfl
        · rw [hv1] at hF
          simp at hF
      have hx2 : leadingUnderscore name = false := by
        cases hv2 : leadingUnderscore name
        · rfl
        · rw [hv2] at hF
          simp at hF
      rw [if_neg hskip] at hok
      rcases hget : alistGet n.dict name with _ | v
      · rw [hget] at hok
        simp only at hok
        exact ih n es hok
      · rw [hget] at hok
        cases v with
        | vNode i =>
          by_cases hrel : hasattrN h i "rel" = true
          · simp only [hrel, if_true] at hok
            rcases hei : exp i with e1 | e1
            · rw [hei] at hok
              exact Except.noConfusion hok
            · rw [hei] at hok
              simp only [except_bind_ok] at hok
              rcases hrest : exportAttrs h exp rest n with es1 | es1
              · rw [hrest] at hok
                exact Except.noConfusion hok
              · rw [hrest] at hok
                simp only [except_bind_ok, Except.ok.injEq] at hok
                subst hok
                simp [exclFreeEntries, hx1, hx2, hexp i e1 hei, ih n es1 hrest]
          · simp only [hrel, if_false, Bool.false_eq_true] at hok
            exact ih n es hok
        | vNone =>
          simp only at hok
          exact ih n es hok
        | vTok t =>
          simp only at hok
          exact ih n es hok
        | vBool b =>
          simp only [isScalarOrList, if_true] at hok
          rcases hrest : exportAttrs h exp rest n with es1 | es1
          · rw [hrest] at hok
            exact Except.noConfusion hok
          · rw [hrest] at hok
            simp only [except_bind_ok, Except.ok.injEq] at hok
            subst hok
            simp [exclFreeEntries, hx1, hx2, exclFree, ih n es1 hrest]
        | vInt nn =>
          simp only [isScalarOrList, if_true] at hok
          rcases hrest : exportAttrs h exp rest n with es1 | es1
          · rw [hrest] at hok
            exact Except.noConfusion hok
          · rw [hrest] at hok
            simp only [except_bind_ok, Except.ok.injEq] at hok
            subst hok
            simp [exclFreeEntries, hx1, hx2, exclFree, ih n es1 hrest]
        | vStr s =>
          simp only [isScalarOrList, if_true] at hok
          rcases hrest : exportAttrs h exp rest n with es1 | es1
          · rw [hrest] at hok
            exact Except.noConfusion hok
          · rw [hrest] at hok
            simp only [except_bind_ok, Except.ok.injEq] at hok
            subst hok
            simp [exclFreeEntries, hx1, hx2, exclFree, ih n es1 hrest]
        | vList xs =>
          simp only [isScalarOrList, if_true] at hok
          rcases hrest : exportAttrs h exp rest n with es1 | es1
          · rw [hrest] at hok
            exact Except.noConfusion hok
          · rw [hrest] at hok
            simp only [except_bind_ok, Except.ok.injEq] at hok
            subst hok
            simp [exclFreeEntries, hx1, hx2, exclFree, ih n es1 hrest]

theorem exportKids_excl (h : Heap) (exp : Nat → Except PyErr ExpVal)
    (hexp : ∀ i e, exp i = .ok e → exclFree e = true) :
    ∀ (cs : List PyVal) (attrs : List (String × ExpVal)) (r : ExpVal),
      exportKids h exp cs attrs = .ok r → exclFreeEntries attrs = true →
      exclFree r = true := by
  intro cs
  induction cs with
  | nil =>
    intro attrs r hok ha
    unfold exportKids at hok
    simp only [Except.ok.injEq] at hok
    subst hok
    exact ha
  | cons c rest ih =>
    intro attrs r hok ha
    unfold exportKids at hok
    by_cases hrel : hasRel h c = true
    · rw [if_pos hrel] at hok
      exact ih attrs r hok ha
    · rw [if_neg hrel] at hok
      cases c with
      | vNode i =>
        rcases hei : exp i with e1 | e1
        · simp only [hei, except_bind_error] at hok
          exact Except.noConfusion hok
        · simp only [hei, except_bind_ok] at hok
          rcases hca : childAppend attrs e1 with a2 | a2
          · rw [hca] at hok
            exact Except.noConfusion hok
          · rw [hca] at hok
            simp only [except_bind_ok] at hok
            exact ih a2 r hok (childAppend_excl attrs e1 a2 ha (hexp i e1 hei) hca)
      | vNone => exact Except.noConfusion hok
      | vBool b => exact Except.noConfusion hok
      | vInt nn => exact Except.noConfusion hok
      | vStr s => exact Except.noConfusion hok
      | vTok t => exact Except.noConfusion hok
      | vList xs => exact Except.noConfusion hok

theorem exportF_exclFree :
    ∀ (fuel : Nat) (h : Heap) (i : Nat) (r : ExpVal),
      exportF h fuel i = .ok r → exclFree r = true := by
  intro fuel
  induction fuel with
  | zero =>
    intro h i r hok
    exact Except.noConfusion hok
  | succ f ih =>
    intro h i r hok
    unfold exportF at hok
    rcases hattrs : exportAttrs h (exportF h f) (dirNames (getNode h i)) (getNode h i)
      with es | es
    · simp only [hattrs, except_bind_error] at hok
      exact Except.noConfusion hok
    · simp only [hattrs, except_bind_ok] at hok
      exact exportKids_excl h (exportF h f) (fun j e hje => ih h j e hje)
        (getNode h i).elems es r hok
        (exportAttrs_excl h (exportF h f) (fun j e hje => ih h j e hje)
          (dirNames (getNode h i)) (getNode h i) es hattrs)

/-- C9, counterexample: the record exported from a bare node of kind X
    has exactly the key type, although type is on the exclusion list of
    the tagged-tree serializer, so the export does not apply the same
    attribute-name-exclusion rule as the serializer (its own list drops
    only parent, target, rel, start, end). -/
theorem claimC9_counterexample :
    expKeys c9CexRec = ["type"] ∧
    xmlExcludedName "type" = true ∧
    exportExcludedName "type" = false :=
  ⟨by rfl, rfl, rfl⟩

/-- C9, amended: the exported record omits exactly the names parent,
    target, rel, start and end (and underscore-led names) at every
    depth — notably type and comments are exported, unlike under the
    tagged-tree attribute rule — while scalar and list attributes are
    copied as-is, each related node attribute is recursively exported
    under its attribute (relation) name, and the unrelated children are
    recursively exported in sequence order under the reserved key
    children, as the concrete record of the second conjunct shows. -/
theorem claimC9_amended :
    (∀ (fuel : Nat) (h : Heap) (i : Nat) (r : ExpVal),
      exportF h fuel i = .ok r → exclFree r = true) ∧
    exportF c9bHeap 5 0 = .ok (ExpVal.eRec
      [("n", .eVal (.vInt 5)),
       ("r", .eRec [("type", .eVal (.vStr "A"))]),
       ("type", .eVal (.vStr "P")),
       ("children", .eList [.eRec [("type", .eVal (.vStr "C"))]])]) :=
  ⟨exportF_exclFree, by rfl⟩

/-- C9, witness: deep key discipline of a concrete exported record. -/
theorem claimC9_witness : exclFree c9CexRec = true :=
  claimC9_amended.1 3 c9Heap 0 c9CexRec (by rfl)
